import Mathlib

/-
  Verification development for the Bot_ORB_Gamma automated trading engine.

  Shallow embedding: Python floats carrying prices become rationals, datetimes
  become natural numbers counting microseconds since a midnight-aligned epoch,
  and each Python method becomes a pure Lean function duplicating its control
  flow.  Stateful methods take the relevant state explicitly and return the
  updated state together with the result.
-/

namespace ORBGamma

/-- Prices and gamma values: Python floats modelled as rationals. -/
abbrev Price := ℚ

/-- Microseconds in one second, one minute and one day; used to decode the
datetime fields that the Python code reads (second, microsecond, date). -/
def secMicros : ℕ := 1000000

def minuteMicros : ℕ := 60000000

def dayMicros : ℕ := 86400000000

/-- The second field of a datetime whose absolute time is ts microseconds. -/
def tsSecond (ts : ℕ) : ℕ := ts / secMicros % 60

/-- The microsecond field of a datetime at absolute time ts. -/
def tsMicrosecond (ts : ℕ) : ℕ := ts % secMicros

/-- Bar data model from models.data_models and the BarLike protocol:
timestamp, open, high, low, close, volume. -/
structure Bar where
  timestamp : ℕ
  «open» : Price
  high : Price
  low : Price
  close : Price
  volume : ℕ
deriving DecidableEq, Repr

/-- Signal kinds BUY, SELL, HOLD.
Modelled from the spec: models.data_models (module absent from src/) defines
the SignalType enumeration consumed by the strategy and execution code. -/
inductive SignalType where
  | BUY
  | SELL
  | HOLD
deriving DecidableEq, Repr

/-- Trading signal record.
Modelled from the spec: models.data_models (module absent from src/) defines
Signal with timestamp, symbol, kind, strategy tag and an optional price; every
construction site in src/ passes these fields by keyword. -/
structure Signal where
  timestamp : ℕ
  symbol : String
  signal_type : SignalType
  strategy : String
  price : Option Price := none
deriving DecidableEq, Repr

/-! ## BreakoutStrategy (strategy/breakout.py)

The strategy state is the list five_second_bars; aggregation_seconds and the
symbol are construction parameters, threaded explicitly. -/

/-- Line 73 of breakout.py: window start of the current aggregation window,
computed from the first buffered bar as
first_ts - timedelta(microseconds = first_ts.microsecond,
                     seconds = first_ts.second % aggregation_seconds). -/
def windowStart (aggregationSeconds : ℕ) (ts : ℕ) : ℕ :=
  ts - tsMicrosecond ts - tsSecond ts % aggregationSeconds * secMicros

/-- The window start the specification text describes: the timestamp floored
to the nearest P-second boundary relative to midnight of its own day.
Modelled from the spec for comparison against windowStart. -/
def claimedWindowStart (aggregationSeconds : ℕ) (ts : ℕ) : ℕ :=
  ts / dayMicros * dayMicros
    + ts % dayMicros / (aggregationSeconds * secMicros) * (aggregationSeconds * secMicros)

/-- Lines 71-84 of breakout.py: the buffer after the boundary check and the
append of the incoming bar.  A non-empty buffer whose implied window does not
contain the incoming bar is discarded before appending. -/
def resyncBuffer (aggregationSeconds : ℕ) (buf : List Bar) (bar : Bar) : List Bar :=
  match buf with
  | [] => [bar]
  | first :: _ =>
    let ws := windowStart aggregationSeconds first.timestamp
    let we := ws + aggregationSeconds * secMicros
    if ws ≤ bar.timestamp ∧ bar.timestamp < we then buf ++ [bar] else [bar]

/-- BreakoutStrategy._aggregate_bars: one candle from the buffered sub-bars;
open of the first, close of the last, max of highs, min of lows, summed
volume, timestamp of the first. -/
def aggregateBars (buf : List Bar) : Option Bar :=
  match buf with
  | [] => none
  | first :: rest =>
    some
      { timestamp := first.timestamp
        «open» := first.«open»
        high := rest.foldl (fun a b => max a b.high) first.high
        low := rest.foldl (fun a b => min a b.low) first.low
        close := (rest.foldl (fun _ b => b) first).close
        volume := first.volume + (rest.map Bar.volume).sum }

/-- A HOLD signal as built by breakout.py. -/
def holdSignal (ts : ℕ) (symbol : String) : Signal :=
  { timestamp := ts, symbol := symbol, signal_type := SignalType.HOLD
    strategy := "BreakoutStrategy" }

/-- BreakoutStrategy.check_breakout, lines 133-159.  The None guard on line
137 is unreachable in this typed embedding because the candle and both levels
are always supplied.  BUY when the candle closes above its open and its low
clears the high level; SELL when it closes below its open and its high is
under the low level; HOLD otherwise. -/
def checkBreakout (symbol : String) (bar : Bar) (highLevel lowLevel : Price) : Signal :=
  if bar.close > bar.«open» ∧ bar.low > highLevel then
    { timestamp := bar.timestamp, symbol := symbol, signal_type := SignalType.BUY
      strategy := "BreakoutStrategy", price := some bar.close }
  else if bar.close < bar.«open» ∧ bar.high < lowLevel then
    { timestamp := bar.timestamp, symbol := symbol, signal_type := SignalType.SELL
      strategy := "BreakoutStrategy", price := some bar.close }
  else
    holdSignal bar.timestamp symbol

/-- BreakoutStrategy.add_realtime_bar, lines 57-100: resync and append, then,
when the buffer holds exactly aggregation_seconds / 5 sub-bars, aggregate,
clear the buffer and evaluate the breakout rule on the candle.  Returns the
new buffer together with the emitted signal. -/
def addRealtimeBar (aggregationSeconds : ℕ) (symbol : String) (buf : List Bar)
    (bar : Bar) (highLevel lowLevel : Price) : List Bar × Signal :=
  let buf' := resyncBuffer aggregationSeconds buf bar
  if buf'.length = aggregationSeconds / 5 then
    match aggregateBars buf' with
    | some candle => ([], checkBreakout symbol candle highLevel lowLevel)
    | none => ([], holdSignal bar.timestamp symbol)
  else
    (buf', holdSignal bar.timestamp symbol)

/-! ## OpeningRangeStrategy (strategy/opening_range.py)

State: the list of accepted bars.  market_open is the time-of-day of the
session open in microseconds; duration_minutes the window length. -/

/-- The session open datetime for the calendar date of absolute time ts:
datetime.combine(ts.date(), market_open). -/
def sessionOpen (marketOpen : ℕ) (ts : ℕ) : ℕ :=
  ts / dayMicros * dayMicros + marketOpen

/-- OpeningRangeStrategy.is_bar_valid: the bar lies in the half-open window
from the session open on its own date to open plus duration_minutes. -/
def isBarValid (marketOpen durationMinutes : ℕ) (bar : Bar) : Bool :=
  let so := sessionOpen marketOpen bar.timestamp
  decide (so ≤ bar.timestamp ∧ bar.timestamp < so + durationMinutes * minuteMicros)

/-- OpeningRangeStrategy.add_bar: appends the bar when valid and reports
acceptance; an out-of-window bar leaves the state untouched and returns
false, nothing is raised. -/
def orbAddBar (marketOpen durationMinutes : ℕ) (bars : List Bar) (bar : Bar) :
    List Bar × Bool :=
  if isBarValid marketOpen durationMinutes bar then (bars ++ [bar], true)
  else (bars, false)

/-- OpeningRangeStrategy.calculate_levels: the pair
(max of the highs, min of the lows) of the collected bars, or the explicit
absent pair when no bar was collected. -/
def calculateLevels (bars : List Bar) : Option Price × Option Price :=
  match bars with
  | [] => (none, none)
  | first :: rest =>
    (some (rest.foldl (fun a b => max a b.high) first.high),
     some (rest.foldl (fun a b => min a b.low) first.low))

/-! ## GEXAnalyzer (strategy/gex_analyzer.py)

Correlation ids come from a per-analyzer counter; the asynchronous queue
contents behind _get_option_data are abstracted by a fetch oracle mapping a
request id to none (TimeoutError after the 10 second wait) or to the observed
(gamma, open interest) pair, which the code only returns once both are
non-None. -/

/-- GEXAnalyzer.get_next_req_id: increment, then return the new counter. -/
def gexGetNextReqId (s : ℕ) : ℕ × ℕ := (s + 1, s + 1)

/-- Subscription events issued against the connector while the per-strike
loop runs. -/
inductive MktEvent where
  | openMkt (reqId : ℕ)
  | cancelMkt (reqId : ℕ)
deriving DecidableEq, Repr

/-- Python abs() on a float, written so that it evaluates. -/
def pyAbs (q : ℚ) : ℚ := if q < 0 then -q else q

/-- pyAbs agrees with the mathematical absolute value. -/
theorem pyAbs_eq_abs (q : ℚ) : pyAbs q = |q| := by
  unfold pyAbs
  split_ifs with h
  · exact (abs_of_neg h).symm
  · exact (abs_of_nonneg (not_lt.mp h)).symm

/-- Python float truthiness on an observed value: 0.0 is falsy. -/
def truthy (q : ℚ) : Prop := q ≠ 0

instance (q : ℚ) : Decidable (truthy q) := by
  unfold truthy; infer_instance

/-- Lines 251-254 of gex_analyzer.py: gex of one strike from the call and put
legs, with the Python truthiness guards (a leg with gamma 0.0 or open
interest 0 contributes 0). -/
def strikeGex (mult : ℚ) (callGamma callOI putGamma putOI : ℚ) : ℚ :=
  let callGex := if truthy callGamma ∧ truthy callOI then callGamma * callOI * mult else 0
  let putGex := if truthy putGamma ∧ truthy putOI then putGamma * putOI * mult else 0
  callGex - putGex

/-- GEXAnalyzer._calculate_gex_for_strikes, lines 223-265: sequential loop
over the strikes.  Each strike draws two fresh request ids, opens the call
and the put subscription, fetches both legs (the fetch oracle returning none
stands for the TimeoutError raised by _get_option_data, which the except
clause swallows so the strike is skipped), and the finally clause cancels
both subscriptions whatever happened.  Returns the ordered association list
of computed gex values, the full subscription event trace, and the final
request id counter. -/
def calcGexForStrikes (mult : ℚ) (fetch : ℕ → Option (ℚ × ℚ)) (reqIdState : ℕ) :
    List ℚ → List (ℚ × ℚ) × List MktEvent × ℕ
  | [] => ([], [], reqIdState)
  | strike :: rest =>
    let callId := (gexGetNextReqId reqIdState).2
    let putId := (gexGetNextReqId (gexGetNextReqId reqIdState).1).2
    let entry : List (ℚ × ℚ) :=
      match fetch callId with
      | none => []
      | some (callGamma, callOI) =>
        match fetch putId with
        | none => []
        | some (putGamma, putOI) =>
          [(strike, strikeGex mult callGamma callOI putGamma putOI)]
    let tail := calcGexForStrikes mult fetch (gexGetNextReqId (gexGetNextReqId reqIdState).1).1 rest
    (entry ++ tail.1,
     [MktEvent.openMkt callId, MktEvent.openMkt putId,
      MktEvent.cancelMkt callId, MktEvent.cancelMkt putId] ++ tail.2.1,
     tail.2.2)

/-- The subscription schedule of the per-strike loop: open call, open put,
cancel call, cancel put for every strike in turn.  Independent of any fetch
outcome. -/
def gexTrace (reqIdState : ℕ) : List ℚ → List MktEvent
  | [] => []
  | _ :: rest =>
    [MktEvent.openMkt (reqIdState + 1), MktEvent.openMkt (reqIdState + 2),
     MktEvent.cancelMkt (reqIdState + 1), MktEvent.cancelMkt (reqIdState + 2)]
      ++ gexTrace (reqIdState + 2) rest

/-- The request ids the loop assigns: the call id per strike, the put id
being one more. -/
def assignIds (reqIdState : ℕ) : List ℚ → List (ℚ × ℕ)
  | [] => []
  | strike :: rest => (strike, reqIdState + 1) :: assignIds (reqIdState + 2) rest

/-- Line 102 of gex_analyzer.py:
max(gex_per_strike, key = abs of the mapped value) over the insertion-ordered
mapping; Python max keeps the first key among ties, replacing the running
best only on a strictly greater key value. -/
def selectMaxAbs (best : ℚ × ℚ) (rest : List (ℚ × ℚ)) : ℚ × ℚ :=
  rest.foldl (fun b q => if pyAbs q.2 > pyAbs b.2 then q else b) best

def maxAbsGexStrike (l : List (ℚ × ℚ)) : Option ℚ :=
  match l with
  | [] => none
  | p :: rest => some (selectMaxAbs p rest).1

/-- Line 214 of gex_analyzer.py: index of the strike nearest the spot price,
Python min over range(len(strikes)) keeping the first index among ties. -/
def closestStrikeIndex (strikes : List ℚ) (spot : ℚ) : ℕ :=
  (List.range strikes.length).foldl
    (fun best i =>
      if pyAbs (strikes.getD i 0 - spot) < pyAbs (strikes.getD best 0 - spot) then i
      else best) 0

/-- GEXAnalyzer._filter_strikes, lines 209-221: the slice
strikes[max(0, i - q/2) : min(len(strikes), i + q/2)] around the nearest
index i with q the configured strikes_quantity. -/
def filterStrikes (strikesQuantity : ℕ) (strikes : List ℚ) (spot : ℚ) : List ℚ :=
  let i := closestStrikeIndex strikes spot
  let half := strikesQuantity / 2
  let startIndex := i - half
  let endIndex := min strikes.length (i + half)
  (strikes.drop startIndex).take (endIndex - startIndex)

/-- The filtering the specification text describes: a symmetric window of
strikes_quantity/2 entries on each side of the nearest index, clipped to the
array bounds.  Modelled from the spec for comparison against filterStrikes. -/
def claimedFilterStrikes (strikesQuantity : ℕ) (strikes : List ℚ) (spot : ℚ) : List ℚ :=
  let i := closestStrikeIndex strikes spot
  let half := strikesQuantity / 2
  let startIndex := i - half
  let endIndex := min strikes.length (i + half + 1)
  (strikes.drop startIndex).take (endIndex - startIndex)

/-! ## OrderManager (execution/order_manager.py) -/

/-- Python round-half-to-even on a rational, the semantics of the builtin
round applied to a float. -/
def pyRound (q : ℚ) : ℤ :=
  let f := ⌊q⌋
  let r := q - f
  if r < 1 / 2 then f
  else if r > 1 / 2 then f + 1
  else if f % 2 = 0 then f else f + 1

/-- Python round(x, 2). -/
def pyRound2 (q : ℚ) : ℚ := (pyRound (q * 100) : ℚ) / 100

/-- OrderManager._get_atm_strike: round(spot / 5) * 5. -/
def getAtmStrike (spot : ℚ) : ℚ := (pyRound (spot / 5) : ℚ) * 5

/-- The dictionary _make_trade_decision returns when a trade is authorized:
the entry action and the option right. -/
structure TradeDecision where
  action : String
  right : String
deriving DecidableEq, Repr

/-- OrderManager._make_trade_decision, lines 72-85: long call on a BUY signal
confirmed by a gamma strike above spot, long put on a SELL signal confirmed
by a gamma strike below spot, the empty dictionary otherwise. -/
def makeTradeDecision (signalType : SignalType) (spot highestGammaStrike : ℚ) :
    Option TradeDecision :=
  if signalType = SignalType.BUY ∧ highestGammaStrike > spot then
    some { action := "BUY", right := "C" }
  else if signalType = SignalType.SELL ∧ highestGammaStrike < spot then
    some { action := "BUY", right := "P" }
  else
    none

/-- The bracket order _place_bracket_order submits: three linked legs built
from the entry price and the configured take-profit and stop-loss
percentages. -/
structure BracketOrder where
  right : String
  strike : ℚ
  expiration : String
  parentAction : String
  entryPrice : ℚ
  takeProfitPrice : ℚ
  stopLossPrice : ℚ
deriving DecidableEq, Repr

/-- OrderManager.place_trade, lines 52-70: no decision means an early return
with no order and no error; otherwise a bracket order on the ATM option
contract at the placeholder entry price 1.50. -/
def placeTrade (takeProfitPct stopLossPct : ℚ) (signalType : SignalType)
    (spot highestGammaStrike : ℚ) (expiration : String) : Option BracketOrder :=
  match makeTradeDecision signalType spot highestGammaStrike with
  | none => none
  | some decision =>
    let entryPrice : ℚ := 3 / 2
    some
      { right := decision.right
        strike := getAtmStrike spot
        expiration := expiration
        parentAction := decision.action
        entryPrice := entryPrice
        takeProfitPrice := pyRound2 (entryPrice * (1 + takeProfitPct))
        stopLossPrice := pyRound2 (entryPrice * (1 - stopLossPct)) }

/-! ## Engine (core/engine.py) -/

/-- The engine state strings. -/
inductive EngineState where
  | INITIALIZING
  | CONNECTING
  | GETTING_OPENING_RANGE
  | MONITORING_BREAKOUT
  | ANALYZING_GEX
  | PENDING_TRADE_EXECUTION
  | SHUTDOWN
deriving DecidableEq, Repr

/-- Python truthiness of an optional float, as applied by the engine to each
level returned by calculate_levels: None and 0.0 are falsy. -/
def truthyOptFloat (x : Option ℚ) : Bool :=
  match x with
  | none => false
  | some v => decide (v ≠ 0)

/-- Lines 178-184 of engine.py: the state transition taken after
calculate_levels returns, guarded by the truthiness of both levels. -/
def openingRangeTransition (levels : Option Price × Option Price) : EngineState :=
  if truthyOptFloat levels.1 ∧ truthyOptFloat levels.2 then
    EngineState.MONITORING_BREAKOUT
  else
    EngineState.SHUTDOWN

/-- The engine state after the opening-range stage has collected the given
bars and computed the levels. -/
def stateAfterOpeningRange (bars : List Bar) : EngineState :=
  openingRangeTransition (calculateLevels bars)

/-! ## Correlation tokens (claim C2)

Three independent id sources exist: Engine.get_next_req_id counts from 0,
GEXAnalyzer.get_next_req_id counts from 1000, and
IBConnector.resolve_contract_details draws from get_next_order_id, the order
id counter seeded by the nextValidId value the gateway sends at connect. -/

/-- Engine.get_next_req_id: increment, then return the new counter; the
constructor sets the counter to 0. -/
def engineGetNextReqId (s : ℕ) : ℕ × ℕ := (s + 1, s + 1)

/-- IBConnector.get_next_order_id: a falsy counter (None or 0, merged to 0
here) returns -1 without incrementing; otherwise return the current value
and increment. -/
def connectorGetNextOrderId (s : ℕ) : ℕ × ℤ :=
  if s = 0 then (s, -1) else (s + 1, (s : ℤ))

/-- The ids GEXAnalyzer.get_next_req_id hands out for the per-strike loop:
two per strike, continuing from the given counter state. -/
def gexTokensFrom (s : ℕ) : ℕ → List ℤ
  | 0 => []
  | n + 1 => ((gexGetNextReqId s).2 : ℤ) :: gexTokensFrom (gexGetNextReqId s).1 n

/-- The correlation tokens one nominal session run assigns, in issuance
order: the engine historical-data request, the engine real-time-bar request,
the contract resolution inside find_and_calculate_gex (drawn from the
gateway-seeded order id counter), the option-parameters request, the spot
price request, then two per analyzed strike. -/
def sessionTokens (orderIdSeed : ℕ) (strikeCount : ℕ) : List ℤ :=
  let e1 := engineGetNextReqId 0
  let e2 := engineGetNextReqId e1.1
  let c1 := connectorGetNextOrderId orderIdSeed
  let g1 := gexGetNextReqId 1000
  let g2 := gexGetNextReqId g1.1
  [(e1.2 : ℤ), (e2.2 : ℤ), c1.2, (g1.2 : ℤ), (g2.2 : ℤ)]
    ++ gexTokensFrom g2.1 (2 * strikeCount)

/-! ## Theorems -/

/-- Claim C4: check_breakout returns the BUY signal priced at the close iff
the candle closes above its open with its low above the high level, the SELL
signal priced at the close iff it closes below its open with its high below
the low level, and the HOLD signal in every other case. -/
theorem c4_check_breakout_rule (symbol : String) (bar : Bar) (H L : Price) :
    (checkBreakout symbol bar H L =
        { timestamp := bar.timestamp, symbol := symbol, signal_type := SignalType.BUY
          strategy := "BreakoutStrategy", price := some bar.close }
      ↔ bar.close > bar.«open» ∧ bar.low > H) ∧
    (checkBreakout symbol bar H L =
        { timestamp := bar.timestamp, symbol := symbol, signal_type := SignalType.SELL
          strategy := "BreakoutStrategy", price := some bar.close }
      ↔ bar.close < bar.«open» ∧ bar.high < L) ∧
    (checkBreakout symbol bar H L = holdSignal bar.timestamp symbol
      ↔ ¬(bar.close > bar.«open» ∧ bar.low > H) ∧
        ¬(bar.close < bar.«open» ∧ bar.high < L)) := by
  unfold checkBreakout holdSignal
  split_ifs with h1 h2
  · refine ⟨by simp [h1], ?_, ?_⟩
    · simp only [Signal.mk.injEq]
      constructor
      · rintro ⟨-, -, h, -⟩; cases h
      · rintro ⟨hlt, -⟩; exact absurd h1.1 (lt_asymm hlt)
    · simp only [Signal.mk.injEq]
      constructor
      · rintro ⟨-, -, -, -, h⟩; cases h
      · rintro ⟨hn, -⟩; exact absurd h1 hn
  · refine ⟨?_, by simp [h2], ?_⟩
    · simp only [Signal.mk.injEq]
      constructor
      · rintro ⟨-, -, h, -⟩; cases h
      · intro h; exact absurd h h1
    · simp only [Signal.mk.injEq]
      constructor
      · rintro ⟨-, -, -, -, h⟩; cases h
      · rintro ⟨-, hn⟩; exact absurd h2 hn
  · refine ⟨?_, ?_, by simp [h1, h2]⟩
    · simp only [Signal.mk.injEq]
      constructor
      · rintro ⟨-, -, h, -⟩; cases h
      · intro h; exact absurd h h1
    · simp only [Signal.mk.injEq]
      constructor
      · rintro ⟨-, -, h, -⟩; cases h
      · intro h; exact absurd h h2

/-- Claim C9: place_trade submits a bracket order exactly for a BUY signal
with the extremal gamma strike above spot (a long call) or a SELL signal with
the strike below spot (a long put); every other combination, HOLD and the
equality case included, places nothing and is a plain no-op. -/
theorem c9_place_trade_authorization (tp sl : ℚ) (st : SignalType)
    (spot strike : ℚ) (expiration : String) :
    ((∃ br, placeTrade tp sl st spot strike expiration = some br ∧
        br.right = "C" ∧ br.parentAction = "BUY")
      ↔ st = SignalType.BUY ∧ strike > spot) ∧
    ((∃ br, placeTrade tp sl st spot strike expiration = some br ∧
        br.right = "P" ∧ br.parentAction = "BUY")
      ↔ st = SignalType.SELL ∧ strike < spot) ∧
    (placeTrade tp sl st spot strike expiration = none
      ↔ ¬(st = SignalType.BUY ∧ strike > spot) ∧
        ¬(st = SignalType.SELL ∧ strike < spot)) := by
  unfold placeTrade makeTradeDecision
  split_ifs with h1 h2
  · refine ⟨by simp [h1], ?_, by simp [h1]⟩
    constructor
    · rintro ⟨br, hbr, hr, -⟩
      rw [Option.some.injEq] at hbr
      rw [← hbr] at hr
      simp at hr
    · rintro ⟨hst, -⟩; rw [h1.1] at hst; cases hst
  · refine ⟨?_, by simp [h2], by simp [h1, h2]⟩
    constructor
    · rintro ⟨br, hbr, hr, -⟩
      rw [Option.some.injEq] at hbr
      rw [← hbr] at hr
      simp at hr
    · intro h; exact absurd h h1
  · refine ⟨?_, ?_, by simp [h1, h2]⟩
    · constructor
      · rintro ⟨br, hbr, -⟩; cases hbr
      · intro h; exact absurd h h1
    · constructor
      · rintro ⟨br, hbr, -⟩; cases hbr
      · intro h; exact absurd h h2

/-- Claim C10: the opening-range stage tests the two returned levels for
Python truthiness, so a computed range in which either level equals 0.0 is
treated as not computed and the engine transitions to SHUTDOWN rather than
MONITORING_BREAKOUT. -/
theorem c10_zero_level_shutdown :
    (∀ bars : List Bar,
      ((calculateLevels bars).1 = some 0 ∨ (calculateLevels bars).2 = some 0) →
        stateAfterOpeningRange bars = EngineState.SHUTDOWN) ∧
    (∀ hq lq : ℚ,
      openingRangeTransition (some hq, some lq) = EngineState.MONITORING_BREAKOUT
        ↔ hq ≠ 0 ∧ lq ≠ 0) ∧
    openingRangeTransition (none, none) = EngineState.SHUTDOWN := by
  refine ⟨?_, ?_, rfl⟩
  · intro bars hzero
    unfold stateAfterOpeningRange openingRangeTransition
    rcases hzero with h | h <;>
      simp [h, truthyOptFloat]
  · intro hq lq
    unfold openingRangeTransition truthyOptFloat
    constructor
    · intro h
      by_contra hn
      rw [if_neg] at h
      · cases h
      · simpa [Decidable.not_and_iff_or_not] using hn
    · rintro ⟨h1, h2⟩
      rw [if_pos]
      simp [h1, h2]

/-- Witness for C10: a single opening-range bar with low 0.0 yields the
levels (some 5, some 0) and the engine shuts down instead of monitoring. -/
theorem c10_zero_level_shutdown_witness :
    (calculateLevels [⟨0, 1, 5, 0, 1, 1⟩]).2 = some 0 ∧
    stateAfterOpeningRange [⟨0, 1, 5, 0, 1, 1⟩] = EngineState.SHUTDOWN :=
  ⟨by decide,
   c10_zero_level_shutdown.1 [⟨0, 1, 5, 0, 1, 1⟩] (Or.inr (by decide))⟩

/-- The last collected bar is the foldl that the aggregation close uses. -/
theorem foldl_last_eq (first : Bar) (rest : List Bar) :
    ((first :: rest).map Bar.close).getLast? =
      some (rest.foldl (fun _ b => b) first).close := by
  induction rest generalizing first with
  | nil => rfl
  | cons b bs ih =>
    rw [List.map_cons, List.map_cons, List.getLast?_cons_cons, ← List.map_cons]
    exact ih b

/-- Bar validity unfolded to its defining window condition. -/
theorem isBarValid_iff (mo dur : ℕ) (bar : Bar) :
    isBarValid mo dur bar = true ↔
      sessionOpen mo bar.timestamp ≤ bar.timestamp ∧
        bar.timestamp < sessionOpen mo bar.timestamp + dur * minuteMicros := by
  simp [isBarValid]

/-- Bar invalidity unfolded. -/
theorem isBarValid_false_iff (mo dur : ℕ) (bar : Bar) :
    isBarValid mo dur bar = false ↔
      ¬(sessionOpen mo bar.timestamp ≤ bar.timestamp ∧
        bar.timestamp < sessionOpen mo bar.timestamp + dur * minuteMicros) := by
  simp [isBarValid]

/-- Claim C3: a bar is accepted exactly when it lies in the half-open window
from the session open on its own calendar date to open plus duration; the
bar at the open is accepted, the bar at open plus duration is rejected,
rejection silently returns the unchanged state with false; and
calculate_levels yields the max of the accepted highs and the min of the
accepted lows, with the explicit (none, none) pair for zero accepted bars. -/
theorem c3_opening_range (mo dur : ℕ) (bars : List Bar) (bar : Bar) (day : ℕ)
    (hwin : mo + dur * minuteMicros < dayMicros) (hdur : 0 < dur) :
    (orbAddBar mo dur bars bar =
      if sessionOpen mo bar.timestamp ≤ bar.timestamp ∧
         bar.timestamp < sessionOpen mo bar.timestamp + dur * minuteMicros
      then (bars ++ [bar], true) else (bars, false)) ∧
    (isBarValid mo dur { bar with timestamp := day * dayMicros + mo } = true) ∧
    (isBarValid mo dur
        { bar with timestamp := day * dayMicros + mo + dur * minuteMicros } = false) ∧
    (isBarValid mo dur bar = false → orbAddBar mo dur bars bar = (bars, false)) ∧
    (calculateLevels [] = (none, none)) ∧
    (∀ hi lo, calculateLevels bars = (some hi, some lo) →
      (bars.map Bar.high).max? = some hi ∧ (bars.map Bar.low).min? = some lo) := by
  refine ⟨?_, ?_, ?_, ?_, rfl, ?_⟩
  · unfold orbAddBar
    by_cases h : sessionOpen mo bar.timestamp ≤ bar.timestamp ∧
        bar.timestamp < sessionOpen mo bar.timestamp + dur * minuteMicros
    · rw [if_pos ((isBarValid_iff mo dur bar).mpr h), if_pos h]
    · rw [if_neg (fun hb => h ((isBarValid_iff mo dur bar).mp hb)), if_neg h]
  · rw [isBarValid_iff]
    dsimp only
    unfold sessionOpen
    unfold minuteMicros dayMicros at *
    omega
  · rw [isBarValid_false_iff]
    dsimp only
    unfold sessionOpen
    unfold minuteMicros dayMicros at *
    simp only [not_and, not_lt]
    omega
  · intro hfalse
    unfold orbAddBar
    rw [hfalse]
    rfl
  · intro hi lo hlev
    unfold calculateLevels at hlev
    match bars with
    | [] => cases hlev
    | first :: rest =>
      simp only [Prod.mk.injEq, Option.some.injEq] at hlev
      obtain ⟨hhi, hlo⟩ := hlev
      constructor
      · rw [List.map_cons]
        show some ((rest.map Bar.high).foldl max first.high) = some hi
        rw [List.foldl_map]
        exact congrArg some hhi
      · rw [List.map_cons]
        show some ((rest.map Bar.low).foldl min first.low) = some lo
        rw [List.foldl_map]
        exact congrArg some hlo

/-- Witness for C3 at the configured 09:30 open with a 30 minute duration on
day zero: the bar at the open is accepted and the bar at open plus duration
is rejected. -/
theorem c3_opening_range_witness :
    (34200000000 + 30 * minuteMicros < dayMicros ∧ 0 < 30) ∧
    isBarValid 34200000000 30
      { Bar.mk 0 1 2 1 1 1 with timestamp := 0 * dayMicros + 34200000000 } = true ∧
    isBarValid 34200000000 30
      { Bar.mk 0 1 2 1 1 1 with
          timestamp := 0 * dayMicros + 34200000000 + 30 * minuteMicros } = false :=
  ⟨⟨by decide, by decide⟩,
   (c3_opening_range 34200000000 30 [] (Bar.mk 0 1 2 1 1 1) 0
      (by decide) (by decide)).2.1,
   (c3_opening_range 34200000000 30 [] (Bar.mk 0 1 2 1 1 1) 0
      (by decide) (by decide)).2.2.1⟩

/-- Aligning to a coarse grid and then flooring the remainder to a fine grid
that divides it equals flooring directly to the fine grid. -/
theorem floor_align (M c n : ℕ) (hM : 0 < M) :
    n / (M * c) * (M * c) + n % (M * c) / M * M = n / M * M := by
  conv_rhs => rw [← Nat.div_add_mod n (M * c)]
  have h1 : M * c * (n / (M * c)) = M * (n / (M * c) * c) := by ring
  rw [h1, Nat.mul_add_div hM]
  ring

/-- Flooring to a multiple of M is subtracting the remainder. -/
theorem div_mul_eq_sub_mod (n M : ℕ) : n / M * M = n - n % M :=
  Nat.eq_sub_of_add_eq (Nat.div_add_mod' n M)

/-- Claim C1 counterexample: with a 300 second aggregation period and a first
buffered bar at 09:34:00, the window start the code computes is 09:34:00, not
the 09:30:00 that flooring to the 300 second boundary relative to midnight
would give, and a bar at 09:36:00 — outside the window the claim describes —
does not cause the buffer to be discarded. -/
theorem c1_counterexample :
    windowStart 300 34440000000 ≠ claimedWindowStart 300 34440000000 ∧
    claimedWindowStart 300 34440000000 + 300 * secMicros ≤ 34560000000 ∧
    resyncBuffer 300 [Bar.mk 34440000000 1 1 1 1 1] (Bar.mk 34560000000 1 1 1 1 1) =
      [Bar.mk 34440000000 1 1 1 1 1, Bar.mk 34560000000 1 1 1 1 1] := by
  refine ⟨by decide, by decide, ?_⟩
  rfl

/-- Claim C1 amended: add_realtime_bar computes the window start from the
first buffered bar by clearing the microsecond field and subtracting the
second field modulo P; this equals the P-second floor relative to midnight
exactly when P divides 60, while for P of at least 60 seconds it is the plain
truncation to the whole minute, minutes not being floored; a non-empty buffer
is discarded, and the incoming bar appended alone, exactly when the incoming
bar falls outside the half-open window of length P starting there. -/
theorem c1_amended_window (P ts : ℕ) (buf : List Bar) (bar first : Bar)
    (rest : List Bar) (hbuf : buf = first :: rest) (hP : 0 < P) :
    (P ∣ 60 → windowStart P ts = claimedWindowStart P ts) ∧
    (60 ≤ P → windowStart P ts = ts / minuteMicros * minuteMicros) ∧
    (¬(windowStart P first.timestamp ≤ bar.timestamp ∧
        bar.timestamp < windowStart P first.timestamp + P * secMicros) →
      resyncBuffer P buf bar = [bar]) ∧
    ((windowStart P first.timestamp ≤ bar.timestamp ∧
        bar.timestamp < windowStart P first.timestamp + P * secMicros) →
      resyncBuffer P buf bar = buf ++ [bar]) := by
  refine ⟨?_, ?_, ?_, ?_⟩
  · intro hdvd
    obtain ⟨k, hk⟩ := hdvd
    have hday : dayMicros = P * secMicros * (k * 1440) := by
      have h60 : (60 : ℕ) * (secMicros * 1440) = dayMicros := by
        unfold dayMicros secMicros; norm_num
      calc dayMicros = 60 * (secMicros * 1440) := h60.symm
        _ = P * k * (secMicros * 1440) := by rw [← hk]
        _ = P * secMicros * (k * 1440) := by ring
    have hMpos : 0 < P * secMicros := Nat.mul_pos hP (by unfold secMicros; norm_num)
    have hclaim : claimedWindowStart P ts = ts / (P * secMicros) * (P * secMicros) := by
      unfold claimedWindowStart
      rw [hday]
      exact floor_align (P * secMicros) (k * 1440) ts hMpos
    rw [hclaim, div_mul_eq_sub_mod]
    have hmm : ts % (P * secMicros) =
        ts % secMicros + secMicros * (ts / secMicros % P) := by
      rw [Nat.mul_comm P secMicros]
      exact Nat.mod_mul
    rw [hmm]
    unfold windowStart tsSecond tsMicrosecond
    rw [Nat.mod_mod_of_dvd (ts / secMicros) ⟨k, hk⟩]
    have h3 : ts / secMicros % P ≤ ts / secMicros := Nat.mod_le _ _
    unfold secMicros at *
    omega
  · intro hge
    unfold windowStart tsSecond tsMicrosecond
    have h : ts / secMicros % 60 % P = ts / secMicros % 60 :=
      Nat.mod_eq_of_lt (lt_of_lt_of_le (Nat.mod_lt _ (by norm_num)) hge)
    rw [h]
    unfold secMicros minuteMicros
    omega
  · intro hout
    subst hbuf
    unfold resyncBuffer
    dsimp only
    rw [if_neg hout]
  · intro hin
    subst hbuf
    unfold resyncBuffer
    dsimp only
    rw [if_pos hin]

/-- Witness for the amended C1: at P = 60 the code window start agrees with
the midnight-relative floor and equals the minute truncation. -/
theorem c1_amended_window_witness :
    windowStart 60 34265123456 = claimedWindowStart 60 34265123456 ∧
    windowStart 60 34265123456 = 34265123456 / minuteMicros * minuteMicros :=
  ⟨(c1_amended_window 60 34265123456 [Bar.mk 0 1 1 1 1 1] (Bar.mk 0 1 1 1 1 1)
      (Bar.mk 0 1 1 1 1 1) [] rfl (by decide)).1 (by decide),
   (c1_amended_window 60 34265123456 [Bar.mk 0 1 1 1 1 1] (Bar.mk 0 1 1 1 1 1)
      (Bar.mk 0 1 1 1 1 1) [] rfl (by decide)).2.1 (by decide)⟩

/-- The buffer after the resync step always ends with the appended bar, so it
is never empty. -/
theorem resyncBuffer_ne_nil (P : ℕ) (buf : List Bar) (bar : Bar) :
    resyncBuffer P buf bar ≠ [] := by
  unfold resyncBuffer
  match buf with
  | [] => simp
  | first :: rest =>
    dsimp only
    split_ifs <;> simp

/-- Claim C5: the call on which the resynced buffer reaches exactly
aggregation_seconds / 5 sub-bars clears the buffer and returns the breakout
evaluation of the single aggregated candle, whose open is the first sub-bar
open, close the last sub-bar close, high the maximum of highs, low the
minimum of lows and volume the sum of volumes; any call leaving the buffer
short of that count keeps the buffer and returns a HOLD signal. -/
theorem c5_aggregation (agg : ℕ) (symbol : String) (buf : List Bar) (bar : Bar)
    (H L : Price) :
    ((resyncBuffer agg buf bar).length = agg / 5 →
      ∃ candle, aggregateBars (resyncBuffer agg buf bar) = some candle ∧
        addRealtimeBar agg symbol buf bar H L = ([], checkBreakout symbol candle H L) ∧
        ((resyncBuffer agg buf bar).map Bar.«open»).head? = some candle.«open» ∧
        ((resyncBuffer agg buf bar).map Bar.close).getLast? = some candle.close ∧
        ((resyncBuffer agg buf bar).map Bar.high).max? = some candle.high ∧
        ((resyncBuffer agg buf bar).map Bar.low).min? = some candle.low ∧
        candle.volume = ((resyncBuffer agg buf bar).map Bar.volume).sum) ∧
    ((resyncBuffer agg buf bar).length ≠ agg / 5 →
      addRealtimeBar agg symbol buf bar H L =
        (resyncBuffer agg buf bar, holdSignal bar.timestamp symbol)) := by
  constructor
  · intro hlen
    obtain ⟨first, rest, hfr⟩ :=
      List.exists_cons_of_ne_nil (resyncBuffer_ne_nil agg buf bar)
    refine ⟨{ timestamp := first.timestamp
              «open» := first.«open»
              high := rest.foldl (fun a b => max a b.high) first.high
              low := rest.foldl (fun a b => min a b.low) first.low
              close := (rest.foldl (fun _ b => b) first).close
              volume := first.volume + (rest.map Bar.volume).sum }, ?_, ?_, ?_, ?_, ?_, ?_, ?_⟩
    · rw [hfr]; rfl
    · unfold addRealtimeBar
      rw [if_pos hlen, hfr]
      rfl
    · rw [hfr]; rfl
    · rw [hfr]
      exact foldl_last_eq first rest
    · rw [hfr, List.map_cons]
      show some ((rest.map Bar.high).foldl max first.high) = _
      rw [List.foldl_map]
    · rw [hfr, List.map_cons]
      show some ((rest.map Bar.low).foldl min first.low) = _
      rw [List.foldl_map]
    · rw [hfr, List.map_cons, List.sum_cons]
  · intro hlen
    unfold addRealtimeBar
    rw [if_neg hlen]

/-- Witness for C5: with a 10 second aggregation period the second in-window
sub-bar completes the candle, the buffer is cleared and the breakout rule is
evaluated once on the aggregate of both bars. -/
theorem c5_aggregation_witness :
    (resyncBuffer 10 [Bar.mk 0 1 2 1 2 5] (Bar.mk 5000000 2 3 2 3 7)).length = 10 / 5 ∧
    (∃ candle,
      aggregateBars (resyncBuffer 10 [Bar.mk 0 1 2 1 2 5] (Bar.mk 5000000 2 3 2 3 7)) =
        some candle ∧
      addRealtimeBar 10 "SPX" [Bar.mk 0 1 2 1 2 5] (Bar.mk 5000000 2 3 2 3 7) 0 10 =
        ([], checkBreakout "SPX" candle 0 10) ∧
      ((resyncBuffer 10 [Bar.mk 0 1 2 1 2 5] (Bar.mk 5000000 2 3 2 3 7)).map
          Bar.«open»).head? = some candle.«open» ∧
      ((resyncBuffer 10 [Bar.mk 0 1 2 1 2 5] (Bar.mk 5000000 2 3 2 3 7)).map
          Bar.close).getLast? = some candle.close ∧
      ((resyncBuffer 10 [Bar.mk 0 1 2 1 2 5] (Bar.mk 5000000 2 3 2 3 7)).map
          Bar.high).max? = some candle.high ∧
      ((resyncBuffer 10 [Bar.mk 0 1 2 1 2 5] (Bar.mk 5000000 2 3 2 3 7)).map
          Bar.low).min? = some candle.low ∧
      candle.volume = ((resyncBuffer 10 [Bar.mk 0 1 2 1 2 5] (Bar.mk 5000000 2 3 2 3 7)).map
          Bar.volume).sum) :=
  ⟨by decide,
   (c5_aggregation 10 "SPX" [Bar.mk 0 1 2 1 2 5] (Bar.mk 5000000 2 3 2 3 7) 0 10).1
     (by decide)⟩

/-- A fold that either keeps its accumulator or replaces it by the scanned
element lands on the seed or on a list element. -/
theorem foldl_choice_mem (P : ℕ → ℕ → Prop) [DecidableRel P] :
    ∀ (l : List ℕ) (b : ℕ),
      l.foldl (fun best i => if P best i then i else best) b = b ∨
        l.foldl (fun best i => if P best i then i else best) b ∈ l := by
  intro l
  induction l with
  | nil => intro b; exact Or.inl rfl
  | cons a t ih =>
    intro b
    rcases ih (if P b a then a else b) with h | h
    · rw [List.foldl_cons, h]
      split_ifs with hc
      · exact Or.inr (List.mem_cons_self _ _)
      · exact Or.inl rfl
    · exact Or.inr (List.mem_cons_of_mem _ h)

/-- On a non-empty chain the nearest-strike index is a valid index. -/
theorem closestStrikeIndex_lt_length (strikes : List ℚ) (spot : ℚ)
    (hne : strikes ≠ []) :
    closestStrikeIndex strikes spot < strikes.length := by
  have hpos : 0 < strikes.length := List.length_pos.mpr hne
  unfold closestStrikeIndex
  rcases foldl_choice_mem
      (fun best i =>
        pyAbs (strikes.getD i 0 - spot) < pyAbs (strikes.getD best 0 - spot))
      (List.range strikes.length) 0 with h | h
  · rw [h]; exact hpos
  · exact List.mem_range.mp h

/-- Claim C7 counterexample: seven strikes, spot on the middle strike, window
quantity 4.  No clipping is involved, yet the returned window holds two
strikes below the nearest strike and only one above it, not the symmetric two
on each side that the claim describes. -/
theorem c7_counterexample :
    filterStrikes 4 [1, 2, 3, 4, 5, 6, 7] 4 = [2, 3, 4, 5] ∧
    claimedFilterStrikes 4 [1, 2, 3, 4, 5, 6, 7] 4 = [2, 3, 4, 5, 6] ∧
    filterStrikes 4 [1, 2, 3, 4, 5, 6, 7] 4 ≠
      claimedFilterStrikes 4 [1, 2, 3, 4, 5, 6, 7] 4 := by
  set_option maxRecDepth 4000 in
  refine ⟨by with_unfolding_all decide, by with_unfolding_all decide,
    by with_unfolding_all decide⟩

/-- Claim C7 amended: _filter_strikes returns the contiguous slice from
max(0, i - q/2) to min(len, i + q/2) around the nearest index i: the q/2
strikes preceding the nearest strike followed by the q/2 strikes starting at
it (the nearest strike itself and the q/2 - 1 above it), each side clipped by
the available length. -/
theorem c7_amended_filter (q : ℕ) (strikes : List ℚ) (spot : ℚ)
    (hne : strikes ≠ []) :
    closestStrikeIndex strikes spot < strikes.length ∧
    filterStrikes q strikes spot =
      (strikes.take (closestStrikeIndex strikes spot)).drop
          (closestStrikeIndex strikes spot - q / 2)
        ++ (strikes.drop (closestStrikeIndex strikes spot)).take (q / 2) ∧
    ((strikes.take (closestStrikeIndex strikes spot)).drop
        (closestStrikeIndex strikes spot - q / 2)).length =
      min (closestStrikeIndex strikes spot) (q / 2) ∧
    ((strikes.drop (closestStrikeIndex strikes spot)).take (q / 2)).length =
      min (strikes.length - closestStrikeIndex strikes spot) (q / 2) := by
  have hi : closestStrikeIndex strikes spot < strikes.length :=
    closestStrikeIndex_lt_length strikes spot hne
  refine ⟨hi, ?_, ?_, ?_⟩
  · unfold filterStrikes
    rw [← List.drop_take (min strikes.length (closestStrikeIndex strikes spot + q / 2))
      (closestStrikeIndex strikes spot - q / 2) strikes]
    have he : min strikes.length (closestStrikeIndex strikes spot + q / 2) =
        closestStrikeIndex strikes spot +
          (min strikes.length (closestStrikeIndex strikes spot + q / 2) -
            closestStrikeIndex strikes spot) := by omega
    rw [he, List.take_add, List.drop_append_eq_append_drop]
    have hlt : (strikes.take (closestStrikeIndex strikes spot)).length =
        closestStrikeIndex strikes spot := by
      rw [List.length_take]; omega
    have hz : closestStrikeIndex strikes spot - q / 2 -
        (strikes.take (closestStrikeIndex strikes spot)).length = 0 := by
      rw [hlt]; omega
    rw [hz, List.drop_zero]
    congr 1
    rw [List.take_eq_take, List.length_drop]
    omega
  · rw [List.length_drop, List.length_take]
    omega
  · rw [List.length_take, List.length_drop]
    omega

/-- Witness for the amended C7 at the counterexample input: the slice around
the nearest strike evaluates as described. -/
theorem c7_amended_filter_witness :
    ([1, 2, 3, 4, 5, 6, 7] : List ℚ) ≠ [] ∧
    filterStrikes 4 [1, 2, 3, 4, 5, 6, 7] 4 =
      (([1, 2, 3, 4, 5, 6, 7] : List ℚ).take (closestStrikeIndex [1, 2, 3, 4, 5, 6, 7] 4)).drop
          (closestStrikeIndex [1, 2, 3, 4, 5, 6, 7] 4 - 4 / 2)
        ++ (([1, 2, 3, 4, 5, 6, 7] : List ℚ).drop
            (closestStrikeIndex [1, 2, 3, 4, 5, 6, 7] 4)).take (4 / 2) :=
  ⟨by decide, (c7_amended_filter 4 [1, 2, 3, 4, 5, 6, 7] 4 (by decide)).2.1⟩


/-- Invariant of the Python max fold: the selected pair is the seed or a list
element, its gex magnitude dominates all scanned magnitudes, the seed is only
ever displaced by a strictly larger magnitude, and on a strike-ascending list
the selected strike is the least among magnitude ties. -/
theorem selectMaxAbs_spec :
    ∀ (rest : List (ℚ × ℚ)) (best : ℚ × ℚ),
      (∀ x ∈ rest, best.1 < x.1) → rest.Pairwise (fun a b => a.1 < b.1) →
      (selectMaxAbs best rest = best ∨
        (selectMaxAbs best rest ∈ rest ∧ |best.2| < |(selectMaxAbs best rest).2|)) ∧
      |best.2| ≤ |(selectMaxAbs best rest).2| ∧
      (∀ x ∈ rest, |x.2| ≤ |(selectMaxAbs best rest).2|) ∧
      (∀ x ∈ best :: rest, |x.2| = |(selectMaxAbs best rest).2| →
        (selectMaxAbs best rest).1 ≤ x.1) := by
  intro rest
  induction rest with
  | nil =>
    intro best hlt hpw
    refine ⟨Or.inl rfl, le_refl _, by simp, ?_⟩
    intro x hx heq
    rw [List.mem_singleton.mp hx]
    exact le_refl _
  | cons q0 t ih =>
    intro best hlt hpw
    have hstep : selectMaxAbs best (q0 :: t) =
        selectMaxAbs (if pyAbs q0.2 > pyAbs best.2 then q0 else best) t := rfl
    by_cases h : pyAbs q0.2 > pyAbs best.2
    · have h' : |best.2| < |q0.2| := by
        rw [← pyAbs_eq_abs, ← pyAbs_eq_abs]; exact h
      rw [hstep, if_pos h]
      have hlt' : ∀ x ∈ t, q0.1 < x.1 := (List.pairwise_cons.mp hpw).1
      have hpw' : t.Pairwise (fun a b => a.1 < b.1) := (List.pairwise_cons.mp hpw).2
      obtain ⟨ih1, ih2, ih3, ih4⟩ := ih q0 hlt' hpw'
      refine ⟨?_, ?_, ?_, ?_⟩
      · rcases ih1 with he | ⟨hm, hgt⟩
        · exact Or.inr ⟨by rw [he]; exact List.mem_cons_self _ _, by rw [he]; exact h'⟩
        · exact Or.inr ⟨List.mem_cons_of_mem _ hm, h'.trans hgt⟩
      · exact h'.le.trans ih2
      · intro x hx
        rcases List.mem_cons.mp hx with he | hm
        · rw [he]; exact ih2
        · exact ih3 x hm
      · intro x hx heq
        rcases List.mem_cons.mp hx with he | hm
        · exfalso
          rw [he] at heq
          exact absurd heq (ne_of_lt (h'.trans_le ih2))
        · exact ih4 x hm heq
    · have h' : |q0.2| ≤ |best.2| := by
        rw [← pyAbs_eq_abs, ← pyAbs_eq_abs]; exact not_lt.mp h
      rw [hstep, if_neg h]
      have hlt' : ∀ x ∈ t, best.1 < x.1 := fun x hx => hlt x (List.mem_cons_of_mem _ hx)
      have hpw' : t.Pairwise (fun a b => a.1 < b.1) := (List.pairwise_cons.mp hpw).2
      obtain ⟨ih1, ih2, ih3, ih4⟩ := ih best hlt' hpw'
      refine ⟨?_, ih2, ?_, ?_⟩
      · rcases ih1 with he | ⟨hm, hgt⟩
        · exact Or.inl he
        · exact Or.inr ⟨List.mem_cons_of_mem _ hm, hgt⟩
      · intro x hx
        rcases List.mem_cons.mp hx with he | hm
        · rw [he]; exact h'.trans ih2
        · exact ih3 x hm
      · intro x hx heq
        rcases List.mem_cons.mp hx with he | hm
        · rw [he] at heq ⊢
          exact ih4 best (List.mem_cons_self _ _) heq
        · rcases List.mem_cons.mp hm with he0 | hm0
          · rcases ih1 with hr | ⟨-, hgt⟩
            · rw [hr]
              rw [he0]
              exact (hlt q0 (List.mem_cons_self _ _)).le
            · exfalso
              rw [he0] at heq
              exact absurd heq (ne_of_lt (h'.trans_lt hgt))
          · exact ih4 x (List.mem_cons_of_mem _ hm0) heq

/-- The strikes that survive the per-strike loop form a sublist of the
scanned strikes. -/
theorem calcGex_keys_sublist (mult : ℚ) (fetch : ℕ → Option (ℚ × ℚ)) :
    ∀ (strikes : List ℚ) (n : ℕ),
      ((calcGexForStrikes mult fetch n strikes).1.map Prod.fst).Sublist strikes := by
  intro strikes
  induction strikes with
  | nil => intro n; simp [calcGexForStrikes]
  | cons st t ih =>
    intro n
    show ((calcGexForStrikes mult fetch n (st :: t)).1.map Prod.fst).Sublist (st :: t)
    unfold calcGexForStrikes
    dsimp only [gexGetNextReqId]
    rcases fetch (n + 1) with - | ⟨cg, coi⟩
    · dsimp only
      exact (ih (n + 2)).trans (List.sublist_cons_self _ _)
    · rcases fetch (n + 1 + 1) with - | ⟨pg, poi⟩
      · dsimp only
        exact (ih (n + 2)).trans (List.sublist_cons_self _ _)
      · simp only [List.singleton_append, List.map_cons]
        exact List.Sublist.cons₂ st (ih (n + 2))

/-- Claim C6: find_and_calculate_gex selects, among the strikes whose gex was
computed, one carrying the maximum absolute gex, and among magnitude ties the
lowest strike, because the strikes are scanned in ascending order and the
Python max keeps the earliest maximal key. -/
theorem c6_max_abs_selection (mult : ℚ) (fetch : ℕ → Option (ℚ × ℚ)) (n : ℕ)
    (strikes : List ℚ) (hsorted : strikes.Pairwise (· < ·)) (s : ℚ)
    (hsel : maxAbsGexStrike (calcGexForStrikes mult fetch n strikes).1 = some s) :
    ∃ g, (s, g) ∈ (calcGexForStrikes mult fetch n strikes).1 ∧
      (∀ q ∈ (calcGexForStrikes mult fetch n strikes).1, |q.2| ≤ |g|) ∧
      (∀ q ∈ (calcGexForStrikes mult fetch n strikes).1, |q.2| = |g| → s ≤ q.1) := by
  have hpwmap : ((calcGexForStrikes mult fetch n strikes).1.map Prod.fst).Pairwise (· < ·) :=
    List.Pairwise.sublist (calcGex_keys_sublist mult fetch strikes n) hsorted
  have hpw : (calcGexForStrikes mult fetch n strikes).1.Pairwise
      (fun a b => a.1 < b.1) := (List.pairwise_map.mp hpwmap)
  match hres : (calcGexForStrikes mult fetch n strikes).1 with
  | [] =>
    rw [hres] at hsel
    cases hsel
  | p :: rest =>
    rw [hres] at hsel hpw
    have hs : s = (selectMaxAbs p rest).1 := by
      unfold maxAbsGexStrike at hsel
      exact (Option.some.injEq _ _ ▸ hsel).symm
    obtain ⟨ih1, ih2, ih3, ih4⟩ := selectMaxAbs_spec rest p
      (fun x hx => List.rel_of_pairwise_cons hpw hx) (List.pairwise_cons.mp hpw).2
    refine ⟨(selectMaxAbs p rest).2, ?_, ?_, ?_⟩
    · rw [hs]
      rcases ih1 with he | ⟨hm, -⟩
      · rw [he]
        exact List.mem_cons_self _ _
      · exact List.mem_cons_of_mem _ hm
    · intro q hq
      rcases List.mem_cons.mp hq with he | hm
      · rw [he]
        exact ih2
      · exact ih3 q hm
    · intro q hq heq
      rw [hs]
      exact ih4 q hq heq

/-- Witness for C6 at the documented tie: strikes 450 and 460 with gex 2000
and -2000 tie on magnitude and the selection returns 450, the lowest. -/
theorem c6_max_abs_selection_witness :
    maxAbsGexStrike
      (calcGexForStrikes 1
        (fun id => if id = 1 then some (2000, 1) else if id = 2 then some (1, 0)
          else if id = 3 then some (0, 5) else some (2000, 1)) 0 [450, 460]).1 =
      some 450 ∧
    (∃ g, (450, g) ∈ (calcGexForStrikes 1
        (fun id => if id = 1 then some (2000, 1) else if id = 2 then some (1, 0)
          else if id = 3 then some (0, 5) else some (2000, 1)) 0 [450, 460]).1 ∧
      (∀ q ∈ (calcGexForStrikes 1
          (fun id => if id = 1 then some (2000, 1) else if id = 2 then some (1, 0)
            else if id = 3 then some (0, 5) else some (2000, 1)) 0 [450, 460]).1,
        |q.2| ≤ |g|) ∧
      (∀ q ∈ (calcGexForStrikes 1
          (fun id => if id = 1 then some (2000, 1) else if id = 2 then some (1, 0)
            else if id = 3 then some (0, 5) else some (2000, 1)) 0 [450, 460]).1,
        |q.2| = |g| → 450 ≤ q.1)) :=
  ⟨by with_unfolding_all decide,
   c6_max_abs_selection 1
     (fun id => if id = 1 then some (2000, 1) else if id = 2 then some (1, 0)
       else if id = 3 then some (0, 5) else some (2000, 1)) 0 [450, 460]
     (by with_unfolding_all decide) 450 (by with_unfolding_all decide)⟩

/-- The subscription trace of the per-strike loop equals the fixed schedule,
whatever the fetch outcomes. -/
theorem calcGex_trace_closed (mult : ℚ) (fetch : ℕ → Option (ℚ × ℚ)) :
    ∀ (strikes : List ℚ) (n : ℕ),
      (calcGexForStrikes mult fetch n strikes).2.1 = gexTrace n strikes := by
  intro strikes
  induction strikes with
  | nil => intro n; rfl
  | cons st t ih =>
    intro n
    show [MktEvent.openMkt (n + 1), MktEvent.openMkt (n + 2),
        MktEvent.cancelMkt (n + 1), MktEvent.cancelMkt (n + 2)]
        ++ (calcGexForStrikes mult fetch (n + 2) t).2.1 =
      [MktEvent.openMkt (n + 1), MktEvent.openMkt (n + 2),
        MktEvent.cancelMkt (n + 1), MktEvent.cancelMkt (n + 2)] ++ gexTrace (n + 2) t
    rw [ih (n + 2)]

/-- The gex results of the per-strike loop are the filterMap of the per-strike
fetch outcomes over the id assignment. -/
theorem calcGex_results_closed (mult : ℚ) (fetch : ℕ → Option (ℚ × ℚ)) :
    ∀ (strikes : List ℚ) (n : ℕ),
      (calcGexForStrikes mult fetch n strikes).1 =
        (assignIds n strikes).filterMap (fun p =>
          match fetch p.2, fetch (p.2 + 1) with
          | some (cg, coi), some (pg, poi) =>
            some (p.1, strikeGex mult cg coi pg poi)
          | _, _ => none) := by
  intro strikes
  induction strikes with
  | nil => intro n; rfl
  | cons st t ih =>
    intro n
    show (match fetch (n + 1) with
        | none => ([] : List (ℚ × ℚ))
        | some (cg, coi) =>
          match fetch (n + 2) with
          | none => []
          | some (pg, poi) => [(st, strikeGex mult cg coi pg poi)])
        ++ (calcGexForStrikes mult fetch (n + 2) t).1 =
      ((st, n + 1) :: assignIds (n + 2) t).filterMap (fun p =>
        match fetch p.2, fetch (p.2 + 1) with
        | some (cg, coi), some (pg, poi) => some (p.1, strikeGex mult cg coi pg poi)
        | _, _ => none)
    rw [List.filterMap_cons]
    rcases fetch (n + 1) with - | ⟨cg, coi⟩
    · dsimp only
      rw [List.nil_append]
      exact ih (n + 2)
    · rcases fetch (n + 2) with - | ⟨pg, poi⟩
      · dsimp only
        rw [List.nil_append]
        exact ih (n + 2)
      · dsimp only
        rw [List.singleton_append, ih (n + 2)]

/-- The request id counter advances by exactly two ids per scanned strike. -/
theorem calcGex_counter_closed (mult : ℚ) (fetch : ℕ → Option (ℚ × ℚ)) :
    ∀ (strikes : List ℚ) (n : ℕ),
      (calcGexForStrikes mult fetch n strikes).2.2 = n + 2 * strikes.length := by
  intro strikes
  induction strikes with
  | nil => intro n; simp [calcGexForStrikes]
  | cons st t ih =>
    intro n
    show (calcGexForStrikes mult fetch (n + 2) t).2.2 = n + 2 * (st :: t).length
    rw [ih (n + 2), List.length_cons]
    ring

/-- Claim C8: a timeout on one strike never escapes
_calculate_gex_for_strikes.  The loop is a total function of the fetch
outcomes; its subscription trace is the fixed open-open-cancel-cancel
schedule per strike, independent of every fetch outcome (so both legs are
cancelled before the next strike opens, on success and timeout alike); the
returned map is the filterMap keeping exactly the strikes whose two fetches
both succeeded, so a failed strike is skipped while the scan continues; and
the surviving strikes form a sublist of the scanned strikes. -/
theorem c8_strike_error_isolation (mult : ℚ) (fetch : ℕ → Option (ℚ × ℚ))
    (n : ℕ) (strikes : List ℚ) :
    (calcGexForStrikes mult fetch n strikes).2.1 = gexTrace n strikes ∧
    (calcGexForStrikes mult fetch n strikes).1 =
      (assignIds n strikes).filterMap (fun p =>
        match fetch p.2, fetch (p.2 + 1) with
        | some (cg, coi), some (pg, poi) => some (p.1, strikeGex mult cg coi pg poi)
        | _, _ => none) ∧
    ((calcGexForStrikes mult fetch n strikes).1.map Prod.fst).Sublist strikes ∧
    (calcGexForStrikes mult fetch n strikes).2.2 = n + 2 * strikes.length :=
  ⟨calcGex_trace_closed mult fetch strikes n,
   calcGex_results_closed mult fetch strikes n,
   calcGex_keys_sublist mult fetch strikes n,
   calcGex_counter_closed mult fetch strikes n⟩

/-- The analyzer counter hands out strictly increasing ids. -/
theorem gexTokensFrom_chain :
    ∀ (k s : ℕ), List.Chain' (· < ·) ((s : ℤ) :: gexTokensFrom s k) := by
  intro k
  induction k with
  | zero => intro s; simp [gexTokensFrom]
  | succ k ih =>
    intro s
    show List.Chain' (· < ·) ((s : ℤ) :: ((s + 1 : ℕ) : ℤ) :: gexTokensFrom (s + 1) k)
    rw [List.chain'_cons]
    exact ⟨by exact_mod_cast Nat.lt_succ_self s, ih (s + 1)⟩

/-- Claim C2 counterexample: in a session whose gateway order-id seed is 1,
the engine issues historical-data token 1 and real-time token 2, and the
contract resolution inside the gamma stage then reuses token 1, so the
session token sequence is neither unique nor monotone. -/
theorem c2_counterexample :
    ¬ (sessionTokens 1 1).Nodup ∧ ¬ List.Chain' (· < ·) (sessionTokens 1 1) := by
  constructor
  · decide
  · intro h
    have h2 := (List.chain'_cons.mp (List.chain'_cons.mp h).2).1
    exact absurd h2 (by decide)

/-- Claim C2 amended: each component draws monotone, per-component-unique ids
from its own counter (engine from 0, analyzer from 1000, connector from the
gateway-seeded order-id counter), and the session token sequence is globally
unique and increasing only when the gateway seed avoids the ranges the other
counters use — here whenever it lies strictly between 2 and 1001. -/
theorem c2_amended_tokens (seed k : ℕ) (h1 : 2 < seed) (h2 : seed < 1001) :
    List.Chain' (· < ·) (sessionTokens seed k) ∧ (sessionTokens seed k).Nodup := by
  have hne : seed ≠ 0 := by omega
  have hc : (connectorGetNextOrderId seed).2 = (seed : ℤ) := by
    unfold connectorGetNextOrderId
    rw [if_neg hne]
  have hlist : sessionTokens seed k =
      1 :: 2 :: (seed : ℤ) :: 1001 :: 1002 :: gexTokensFrom 1002 (2 * k) := by
    show (1 : ℤ) :: 2 :: (connectorGetNextOrderId seed).2 :: 1001 :: 1002 ::
        gexTokensFrom 1002 (2 * k) =
      1 :: 2 :: (seed : ℤ) :: 1001 :: 1002 :: gexTokensFrom 1002 (2 * k)
    rw [hc]
  have hchain : List.Chain' (· < ·) (sessionTokens seed k) := by
    rw [hlist]
    rw [List.chain'_cons, List.chain'_cons, List.chain'_cons, List.chain'_cons]
    refine ⟨by decide, by exact_mod_cast h1, by exact_mod_cast h2, by decide, ?_⟩
    have := gexTokensFrom_chain (2 * k) 1002
    exact_mod_cast this
  refine ⟨hchain, ?_⟩
  have hpw : (sessionTokens seed k).Pairwise (· < ·) :=
    List.chain'_iff_pairwise.mp hchain
  exact hpw.imp ne_of_lt

/-- Witness for the amended C2: seed 500 with one analyzed strike yields the
strictly increasing, duplicate-free token sequence. -/
theorem c2_amended_tokens_witness :
    (2 < 500 ∧ 500 < 1001) ∧
    List.Chain' (· < ·) (sessionTokens 500 1) ∧ (sessionTokens 500 1).Nodup :=
  ⟨⟨by decide, by decide⟩, c2_amended_tokens 500 1 (by decide) (by decide)⟩

end ORBGamma
